import Mathlib

/-!
Verification of the `ImageInterface` adapter (`src/holoviews/core/data/image.py`)
against its natural-language specification.

The interface is embedded shallowly: the rank-2 numpy array becomes a row-major
`List (List Val)` whose entries are `Option ℚ` (with `none` standing for a NaN
cell), the bounding region becomes an optional `(l, b, r, t)` quadruple of
rationals, and the fallible operations return `Except PyErr`.  Row 0 of the
array is the top of the bounding region, matching the raster storage convention
the source relies on.  Helpers of the surrounding framework that are not part
of the reviewed sources (`sheetcoords.py`, `boundingregion.py`, `util.py`) are
modelled from the specification's description and say so in their doc comments.
-/

set_option maxHeartbeats 1000000

namespace Img

/-- An array cell: either a rational sample or a NaN (modelled as `none`). -/
abbrev Val := Option ℚ

/-- The dataset objects `ImageInterface` class methods receive: a rank-2
row-major array (row 0 = top of the bounding region), an optional bounding
region `(left, bottom, right, top)` (`none` models a missing/falsy `bounds`
attribute), the two sample densities, and the number of declared value
dimensions. -/
structure Dataset where
  data : List (List Val)
  bounds : Option (ℚ × ℚ × ℚ × ℚ)
  xdensity : ℚ
  ydensity : ℚ
  nvdims : ℕ
deriving DecidableEq

/-- Exceptions the Python code can raise along the embedded paths. -/
inductive PyErr where
  | keyError : String → PyErr
  | valueError : String → PyErr
  | indexError : String → PyErr
  | nameError : String → PyErr
deriving DecidableEq

/-- `dataset.bounds.lbrt()`.  The Python code would raise on a dataset whose
`bounds` is missing; callers below are only exercised on datasets with bounds
present, where this equals the stored quadruple. -/
def lbrt (ds : Dataset) : ℚ × ℚ × ℚ × ℚ := ds.bounds.getD (0, 0, 0, 0)

/-- `dataset.data.shape[0]`: number of rows. -/
def nrows (ds : Dataset) : ℕ := ds.data.length

/-- `dataset.data.shape[1]`: number of columns. -/
def ncols (ds : Dataset) : ℕ := (ds.data.headD []).length

/-- Shape of a rank-2 list array: (number of rows, number of columns). -/
def shp {α : Type} (d : List (List α)) : ℕ × ℕ := (d.length, (d.headD []).length)

/-- `np.linspace a b n`: `n` evenly spaced values from `a` to `b` inclusive. -/
def linspace (a b : ℚ) (n : ℕ) : List ℚ :=
  if n = 0 then []
  else if n = 1 then [a]
  else (List.range n).map (fun k : ℕ => a + (k : ℚ) * ((b - a) / ((n : ℚ) - 1)))

/-- The x-axis cell-center coordinates `d1lin` of `ImageInterface.values`
(lines 94 and 96): `linspace (l + half) (r - half) ncols` with
`half = (r-l)/ncols/2`. -/
def xcoords (ds : Dataset) : List ℚ :=
  let q := lbrt ds
  let l := q.1
  let r := q.2.2.1
  linspace (l + (r - l) / (ncols ds) / 2) (r - (r - l) / (ncols ds) / 2) (ncols ds)

/-- The y-axis cell-center coordinates `d2lin` of `ImageInterface.values`
(lines 95 and 97): `linspace (b + half) (t - half) nrows` with
`half = (t-b)/nrows/2`. -/
def ycoords (ds : Dataset) : List ℚ :=
  let q := lbrt ds
  let b := q.2.1
  let t := q.2.2.2
  linspace (b + (t - b) / (nrows ds) / 2) (t - (t - b) / (nrows ds) / 2) (nrows ds)

/-- Possible results of `ImageInterface.values`: a 1-D or 2-D coordinate
array, a 1-D or 2-D value array, or the `(None, None)` fallback. -/
inductive VResult where
  | coords1 : List ℚ → VResult
  | coords2 : List (List ℚ) → VResult
  | data1 : List Val → VResult
  | data2 : List (List Val) → VResult
  | nonePair : VResult
deriving DecidableEq

/-- `ImageInterface.values` (lines 85-109).  For a key dimension the expanded
grid is `np.meshgrid(d2lin, d1lin)[abs(dim_idx-1)]`: with numpy's default
`indexing='xy'` both outputs have shape `(len d1lin, len d2lin)`, output 1
broadcasts the second argument per row (`grid[i][j] = d1lin[i]`) and output 0
broadcasts the first argument along each row (`grid[i][j] = d2lin[j]`).
For `dim_idx = 2` the data is flipped upside down (`np.flipud`); any other
index yields the `(None, None)` pair. -/
def values (ds : Dataset) (dimIdx : ℕ) (expanded flat : Bool) : VResult :=
  if dimIdx = 0 ∨ dimIdx = 1 then
    if expanded then
      let grid :=
        if dimIdx = 0
          then (xcoords ds).map (fun x => (ycoords ds).map (fun _ => x))
          else (xcoords ds).map (fun _ => ycoords ds)
      if flat then .coords1 grid.flatten else .coords2 grid
    else if dimIdx = 1 then .coords1 (ycoords ds) else .coords1 (xcoords ds)
  else if dimIdx = 2 then
    let d := ds.data.reverse
    if flat then .data1 d.flatten else .data2 d
  else .nonePair

/-- A numpy result as `aggregate` sees it: a scalar or an array. -/
inductive NPResult where
  | scalar : ℚ → NPResult
  | array1 : List ℚ → NPResult
  | array2 : List (List ℚ) → NPResult
deriving DecidableEq

/-- `np.atleast_1d`: wraps a scalar into a one-element array, leaves arrays
unchanged. -/
def atleast1d : NPResult → NPResult
  | .scalar x => .array1 [x]
  | r => r

/-- `np.isscalar`: true only on a bare scalar, false on any array. -/
def isscalar : NPResult → Bool
  | .scalar _ => true
  | _ => false

/-- Result of `ImageInterface.aggregate`: the post-`atleast_1d` data when the
(dead) scalar branch fires, the `{kdim: coords, vdim: reduced}` mapping of the
one-remaining-axis branch (payloads kept, dictionary keys dropped), or
Python's implicit `None` when no branch matches. -/
inductive AggResult where
  | value : NPResult → AggResult
  | table : VResult → NPResult → AggResult
  | pyNone : AggResult
deriving DecidableEq

/-- The `axes` tuple of `ImageInterface.aggregate` (lines 198-199): for each
dataset key dimension whose alias is not among the retained ones, the array
axis `ndims - index - 1`. -/
def aggAxes (kdAliases retained : List String) : List ℕ :=
  (kdAliases.enum.filter (fun p => ¬ retained.contains p.2)).map
    (fun p => kdAliases.length - p.1 - 1)

/-- `ImageInterface.aggregate` (lines 195-206).  `kdAliases` are the aliases
of the dataset's key dimensions in declaration order, `retained` the aliases
of the key dimensions to keep, and `f` the reducing function applied as
`f data axes`.  The source wraps the reduction in `np.atleast_1d` before the
`np.isscalar` test and falls off the end of the function (returning `None`)
when the branch conditions fail. -/
def aggregate (ds : Dataset) (kdAliases retained : List String)
    (f : List (List Val) → List ℕ → NPResult) : AggResult :=
  let axes := aggAxes kdAliases retained
  let d := atleast1d (f ds.data axes)
  if isscalar d then .value d
  else if axes.length = 1 then .table (values ds (axes.headD 0) false true) d
  else .pyNone

/-- `numpy.mean` on a rank-2 array for the axis tuples `aggregate` can pass:
both axes → the grand mean as a scalar; axis 0 alone → per-column means;
axis 1 alone → per-row means; anything else leaves the array unreduced.
NaN cells are read as 0 via `Option.getD`; the claims only apply this to
NaN-free data. -/
def npMean (d : List (List Val)) (axes : List ℕ) : NPResult :=
  let q : Val → ℚ := fun v => v.getD 0
  if axes.contains 0 ∧ axes.contains 1 then
    let flat := (d.flatten).map q
    .scalar (flat.sum / (flat.length : ℚ))
  else if axes = [0] then
    .array1 ((List.range (d.headD []).length).map (fun j =>
      (d.map (fun row => q (row.getD j none))).sum / (d.length : ℚ)))
  else if axes = [1] then
    .array1 (d.map (fun row => (row.map q).sum / (row.length : ℚ)))
  else .array2 (d.map (fun row => row.map q))

/-- The 2×2 dataset `[[1,2],[3,4]]` on bounds `(0,0,2,2)` with unit densities
and one value dimension, used as the concrete probe input. -/
def exImg : Dataset :=
  ⟨[[some 1, some 2], [some 3, some 4]], some (0, 0, 2, 2), 1, 1, 1⟩

/-- C1: reducing the 2×2 array `[[1,2],[3,4]]` over all axes with a
`numpy.mean`-equivalent does produce the scalar 5/2, but `aggregate` returns
Python's `None` rather than that scalar: `np.atleast_1d` turns the scalar
into a one-element array, so the `np.isscalar` test on line 202 can never
succeed, and with both axes reduced (`len(axes) = 2`) no other branch
matches. -/
theorem C1_aggregate_all_axes_returns_pyNone :
    npMean exImg.data (aggAxes ["x", "y"] []) = .scalar (5/2) ∧
    aggregate exImg ["x", "y"] [] npMean = .pyNone := by
  have hax : aggAxes ["x", "y"] [] = [1, 0] := rfl
  constructor
  · rw [hax]
    simp +decide only [npMean, exImg, List.flatten, List.append_nil, List.cons_append,
      List.map_cons, List.map_nil, List.sum_cons, List.sum_nil, List.length_cons,
      List.length_nil, Option.getD_some, if_true, NPResult.scalar.injEq]
    norm_num
  · rfl

/-- Column `j` of a rank-2 array (`data[:, j]` on the rectangular arrays numpy
stores; out-of-shape positions read as NaN and never arise on rectangular
input). -/
def column (d : List (List Val)) (j : ℕ) : List Val :=
  d.map (fun row => row.getD j none)

/-- The single-grouping-dimension body of `ImageInterface.groupby`
(lines 170-182), for grouping dimension index `didx` (0 = x, 1 = y).  Each
group is `(coordinate, (other-axis coordinates, extracted 1-D slice))`; the
group type's dictionary plumbing is dropped.  When `didx` is nonzero the
sample list (row selectors) is reversed and the array used as stored; when
`didx` is zero the array is flipped upside down (`data[::-1, :]`) before the
columns are extracted. -/
def groupby1 (ds : Dataset) (didx : ℕ) : List (ℚ × (List ℚ × List Val)) :=
  let coords := if didx = 0 then xcoords ds else ycoords ds
  let xvals := if didx = 0 then ycoords ds else xcoords ds
  if didx ≠ 0 then
    let samples := (List.range (nrows ds)).reverse
    (samples.zip coords).map (fun p => (p.2, (xvals, ds.data.getD p.1 [])))
  else
    let d := ds.data.reverse
    ((List.range (ncols ds)).zip coords).map (fun p => (p.2, (xvals, column d p.1)))

/-- The grouping behavior claim C2 describes, stated for comparison with
`groupby1`: grouping by the y-axis reverses both the coordinate order and the
array's row order before pairing, and grouping by the x-axis extracts columns
from the array as stored, row-major, with no reversal. -/
def claimGroupby1 (ds : Dataset) (didx : ℕ) : List (ℚ × (List ℚ × List Val)) :=
  if didx ≠ 0 then
    ((ycoords ds).reverse.zip ds.data.reverse).map
      (fun p => (p.1, (xcoords ds, p.2)))
  else
    ((List.range (ncols ds)).zip (xcoords ds)).map
      (fun p => (p.2, (ycoords ds, column ds.data p.1)))

/-- Result of `ImageInterface.groupby` when it returns at all: the grouped
pairs wrapped as an `NdMapping`-style container. -/
inductive GroupResult where
  | ndmapping : List (ℚ × (List ℚ × List Val)) → GroupResult
deriving DecidableEq

/-- `ImageInterface.groupby` with its container dispatch (lines 188-192): for
an `NdMapping` container the groups are wrapped and returned; otherwise the
source evaluates `container_type(grouped_data)` where `grouped_data` is never
defined on any path (the computed pairs live in `groups`), so Python raises a
`NameError`. -/
def groupbyContainer (ds : Dataset) (didx : ℕ) (isNdMapping : Bool) :
    Except PyErr GroupResult :=
  let gs := groupby1 ds didx
  if isNdMapping then .ok (.ndmapping gs)
  else .error (.nameError "name grouped_data is not defined")

/-- C5: on the concrete 2×2 dataset, a single-dimension `groupby` into a
non-`NdMapping` container does not return the grouped pairs wrapped in the
container: the code's final line references the undefined variable
`grouped_data` and raises a `NameError`. -/
theorem C5_groupby_non_mapping_raises_nameError :
    groupbyContainer exImg 0 false =
      .error (.nameError "name grouped_data is not defined") := rfl

/-- C2 is false as stated: on the 2×2 dataset `[[1,2],[3,4]]`, grouping by the
x-axis (index 0) does not access the array row-major as stored — the extracted
first column is `[3,1]` (rows flipped), not `[1,3]` — so `groupby1` differs
from the behavior the claim describes (already in its value slices, projected
here). -/
theorem C2_counterexample_x_grouping_reverses_rows :
    (groupby1 exImg 0).map (fun p => p.2.2) ≠
      (claimGroupby1 exImg 0).map (fun p => p.2.2) := by
  decide

theorem linspace_length (a b : ℚ) (n : ℕ) : (linspace a b n).length = n := by
  unfold linspace
  split
  · simp [*]
  · split
    · simp [*]
    · simp

theorem linspace_getElem? (a b : ℚ) {n k : ℕ} (h2 : 2 ≤ n) (hk : k < n) :
    (linspace a b n)[k]? = some (a + (k : ℚ) * ((b - a) / ((n : ℚ) - 1))) := by
  unfold linspace
  rw [if_neg (by omega), if_neg (by omega), List.getElem?_map, List.getElem?_range hk]
  rfl

theorem linspace_head? (a b : ℚ) {n : ℕ} (h1 : 1 ≤ n) :
    (linspace a b n).head? = some a := by
  unfold linspace
  rw [if_neg (by omega)]
  by_cases h : n = 1
  · simp [h]
  · rw [if_neg h]
    obtain ⟨m, rfl⟩ : ∃ m, n = m + 1 := ⟨n - 1, by omega⟩
    rw [List.range_succ_eq_map]
    simp

theorem linspace_getLast? (a b : ℚ) {n : ℕ} (h2 : 2 ≤ n) :
    (linspace a b n).getLast? = some b := by
  unfold linspace
  rw [if_neg (by omega), if_neg (by omega)]
  obtain ⟨m, rfl⟩ : ∃ m, n = m + 1 := ⟨n - 1, by omega⟩
  rw [List.range_succ, List.map_append, List.map_cons, List.map_nil,
    List.getLast?_concat]
  have hm : (m : ℚ) ≠ 0 := by
    have : m ≠ 0 := by omega
    exact_mod_cast this
  congr 1
  push_cast
  field_simp

/-- The cell-center sequence facts C8 asserts, for one axis: the `linspace`
from `low + half` to `high - half` with `n` sample points has length `n`,
starts at `low + half`, ends at `high - half`, and advances by the uniform
cell width `(high - low) / n` between consecutive entries. -/
theorem linspace_centers (lo hi : ℚ) {n : ℕ} (h1 : 1 ≤ n) :
    (linspace (lo + (hi - lo) / (n : ℚ) / 2) (hi - (hi - lo) / (n : ℚ) / 2) n).length = n ∧
    (linspace (lo + (hi - lo) / (n : ℚ) / 2) (hi - (hi - lo) / (n : ℚ) / 2) n).head? =
      some (lo + (hi - lo) / (n : ℚ) / 2) ∧
    (linspace (lo + (hi - lo) / (n : ℚ) / 2) (hi - (hi - lo) / (n : ℚ) / 2) n).getLast? =
      some (hi - (hi - lo) / (n : ℚ) / 2) ∧
    ∀ k, k + 1 < n →
      (linspace (lo + (hi - lo) / (n : ℚ) / 2) (hi - (hi - lo) / (n : ℚ) / 2) n)[k+1]? =
        ((linspace (lo + (hi - lo) / (n : ℚ) / 2) (hi - (hi - lo) / (n : ℚ) / 2) n)[k]?).map
          (· + (hi - lo) / (n : ℚ)) := by
  refine ⟨linspace_length _ _ _, linspace_head? _ _ h1, ?_, ?_⟩
  · by_cases hone : n = 1
    · subst hone
      have hv : lo + (hi - lo) / ((1 : ℕ) : ℚ) / 2 = hi - (hi - lo) / ((1 : ℕ) : ℚ) / 2 := by
        push_cast
        ring
      calc (linspace (lo + (hi - lo) / ((1 : ℕ) : ℚ) / 2)
              (hi - (hi - lo) / ((1 : ℕ) : ℚ) / 2) 1).getLast?
          = some (lo + (hi - lo) / ((1 : ℕ) : ℚ) / 2) := rfl
        _ = some (hi - (hi - lo) / ((1 : ℕ) : ℚ) / 2) := by rw [hv]
    · exact linspace_getLast? _ _ (by omega)
  · intro k hk
    have h2 : 2 ≤ n := by omega
    have hn0 : (n : ℚ) ≠ 0 := by positivity
    have hn1 : (n : ℚ) - 1 ≠ 0 := by
      have : (2 : ℚ) ≤ (n : ℚ) := by exact_mod_cast h2
      nlinarith
    rw [linspace_getElem? _ _ h2 hk, linspace_getElem? _ _ h2 (by omega),
      Option.map_some']
    congr 1
    push_cast
    field_simp
    ring

/-- C8: for a dataset with bounds `(l,b,r,t)` and a nonempty array,
`values` with `expanded = False` returns, for key dimension 0, exactly the
`ncols` cell-center x-coordinates — running from `l + half` to `r - half`
with `half = (r-l)/ncols/2` and advancing by the uniform cell width
`(r-l)/ncols` — and, for key dimension 1, the analogous `nrows` y-coordinates
in `(b, t)`. -/
theorem C8_values_unexpanded_cell_centers (ds : Dataset) (l b r t : ℚ)
    (hb : ds.bounds = some (l, b, r, t)) (hm : 1 ≤ nrows ds) (hn : 1 ≤ ncols ds) :
    (values ds 0 false true = .coords1 (xcoords ds) ∧
      (xcoords ds).length = ncols ds ∧
      (xcoords ds).head? = some (l + (r - l) / (ncols ds : ℚ) / 2) ∧
      (xcoords ds).getLast? = some (r - (r - l) / (ncols ds : ℚ) / 2) ∧
      ∀ k, k + 1 < ncols ds →
        (xcoords ds)[k+1]? = ((xcoords ds)[k]?).map (· + (r - l) / (ncols ds : ℚ))) ∧
    (values ds 1 false true = .coords1 (ycoords ds) ∧
      (ycoords ds).length = nrows ds ∧
      (ycoords ds).head? = some (b + (t - b) / (nrows ds : ℚ) / 2) ∧
      (ycoords ds).getLast? = some (t - (t - b) / (nrows ds : ℚ) / 2) ∧
      ∀ k, k + 1 < nrows ds →
        (ycoords ds)[k+1]? = ((ycoords ds)[k]?).map (· + (t - b) / (nrows ds : ℚ))) := by
  have hq : lbrt ds = (l, b, r, t) := by
    unfold lbrt
    rw [hb]
    rfl
  have hx : xcoords ds =
      linspace (l + (r - l) / (ncols ds : ℚ) / 2) (r - (r - l) / (ncols ds : ℚ) / 2)
        (ncols ds) := by
    unfold xcoords
    rw [hq]
  have hy : ycoords ds =
      linspace (b + (t - b) / (nrows ds : ℚ) / 2) (t - (t - b) / (nrows ds : ℚ) / 2)
        (nrows ds) := by
    unfold ycoords
    rw [hq]
  have cx := linspace_centers l r hn
  have cy := linspace_centers b t hm
  rw [← hx] at cx
  rw [← hy] at cy
  exact ⟨⟨rfl, cx⟩, ⟨rfl, cy⟩⟩

/-- Witness for C8 at the concrete 2×2 dataset. -/
theorem C8_witness :
    (xcoords exImg).length = ncols exImg ∧
    (xcoords exImg).head? = some (0 + (2 - 0) / (ncols exImg : ℚ) / 2) ∧
    (ycoords exImg).getLast? = some (2 - (2 - 0) / (nrows exImg : ℚ) / 2) := by
  have h := C8_values_unexpanded_cell_centers exImg 0 0 2 2 rfl (by decide) (by decide)
  exact ⟨h.1.2.1, h.1.2.2.1, h.2.2.2.2.1⟩

theorem xcoords_length (ds : Dataset) : (xcoords ds).length = ncols ds := by
  unfold xcoords
  exact linspace_length _ _ _

theorem ycoords_length (ds : Dataset) : (ycoords ds).length = nrows ds := by
  unfold ycoords
  exact linspace_length _ _ _

theorem column_reverse (d : List (List Val)) (j : ℕ) :
    column d.reverse j = (column d j).reverse := by
  unfold column
  exact List.map_reverse _ _

/-- C2 (amended): the orientation correction of the single-dimension
`groupby`, as the code actually performs it.  Grouping by the y-axis
(index 1) pairs the ascending y cell-center coordinates with the array rows
taken bottom-to-top — the row-selector list is reversed while the array
itself is left as stored — so group `k` holds row `nrows - 1 - k`.  Grouping
by the x-axis (index 0) flips the array upside down before extracting
columns, so group `k` holds column `k` with its entries reversed
(bottom-up).  This is the opposite assignment of reversals from the one the
claim states. -/
theorem C2_groupby_orientation (ds : Dataset) (k : ℕ) :
    (k < nrows ds →
      (groupby1 ds 1)[k]? =
        some ((ycoords ds).getD k 0,
          (xcoords ds, ds.data.getD (nrows ds - 1 - k) []))) ∧
    (k < ncols ds →
      (groupby1 ds 0)[k]? =
        some ((xcoords ds).getD k 0,
          (ycoords ds, (column ds.data k).reverse))) := by
  constructor
  · intro hk
    have g1 : groupby1 ds 1 =
        ((List.range (nrows ds)).reverse.zip (ycoords ds)).map
          (fun p => (p.2, (xcoords ds, ds.data.getD p.1 []))) := rfl
    have hky : k < (ycoords ds).length := by
      rw [ycoords_length]
      exact hk
    have hc : (ycoords ds)[k]? = some ((ycoords ds).getD k 0) := by
      rw [List.getElem?_eq_getElem hky, List.getD_eq_getElem?_getD,
        List.getElem?_eq_getElem hky]
      rfl
    have hs : (List.range (nrows ds)).reverse[k]? = some (nrows ds - 1 - k) := by
      rw [List.getElem?_reverse (by simpa using hk)]
      rw [List.length_range]
      exact List.getElem?_range (by omega)
    have hz : ((List.range (nrows ds)).reverse.zip (ycoords ds))[k]? =
        some (nrows ds - 1 - k, (ycoords ds).getD k 0) :=
      (List.getElem?_zip_eq_some).mpr ⟨hs, hc⟩
    rw [g1, List.getElem?_map, hz]
    rfl
  · intro hk
    have g0 : groupby1 ds 0 =
        ((List.range (ncols ds)).zip (xcoords ds)).map
          (fun p => (p.2, (ycoords ds, column ds.data.reverse p.1))) := rfl
    have hkx : k < (xcoords ds).length := by
      rw [xcoords_length]
      exact hk
    have hc : (xcoords ds)[k]? = some ((xcoords ds).getD k 0) := by
      rw [List.getElem?_eq_getElem hkx, List.getD_eq_getElem?_getD,
        List.getElem?_eq_getElem hkx]
      rfl
    have hs : (List.range (ncols ds))[k]? = some k := List.getElem?_range hk
    have hz : ((List.range (ncols ds)).zip (xcoords ds))[k]? =
        some (k, (xcoords ds).getD k 0) :=
      (List.getElem?_zip_eq_some).mpr ⟨hs, hc⟩
    rw [g0, List.getElem?_map, hz]
    simp only [Option.map_some']
    rw [column_reverse]

/-- Witness for C2 at the concrete 2×2 dataset and group index 0. -/
theorem C2_witness :
    (groupby1 exImg 1)[0]? =
      some ((ycoords exImg).getD 0 0,
        (xcoords exImg, exImg.data.getD (nrows exImg - 1 - 0) [])) ∧
    (groupby1 exImg 0)[0]? =
      some ((xcoords exImg).getD 0 0,
        (ycoords exImg, (column exImg.data 0).reverse)) :=
  ⟨(C2_groupby_orientation exImg 0).1 (by decide),
   (C2_groupby_orientation exImg 0).2 (by decide)⟩

/-- Shape of a `values` result, when it is a 2-D array. -/
def vshape : VResult → Option (ℕ × ℕ)
  | .coords2 g => some (shp g)
  | .data2 d => some (shp d)
  | _ => none

/-- A 2×3 probe dataset: `[[1,2,3],[4,5,6]]` on bounds `(0,0,3,2)` with unit
densities. -/
def exWide : Dataset :=
  ⟨[[some 1, some 2, some 3], [some 4, some 5, some 6]], some (0, 0, 3, 2), 1, 1, 1⟩

/-- C4: on a 2×3 array, `values` for key dimension 0 with `expanded = True`
and `flat = False` returns a grid of shape `(3, 2)` — the transpose of the
data shape `(2, 3)` — because `np.meshgrid(d2lin, d1lin)` produces outputs of
shape `(len d1lin, len d2lin)`.  The claim (and spec §4.5) say the grid shape
matches the data shape. -/
theorem C4_values_expanded_grid_is_transposed :
    vshape (values exWide 0 true false) = some (3, 2) ∧
    shp exWide.data = (2, 3) ∧
    values exWide 0 true false =
      .coords2 [[1/2, 1/2], [3/2, 3/2], [5/2, 5/2]] := by
  refine ⟨by decide, by decide, ?_⟩
  show VResult.coords2 ((xcoords exWide).map (fun x => (ycoords exWide).map (fun _ => x))) = _
  have hx : xcoords exWide = [1/2, 3/2, 5/2] := by
    unfold xcoords lbrt ncols exWide
    norm_num [linspace, List.range_succ]
  have hy : ycoords exWide = [1/2, 3/2] := by
    unfold ycoords lbrt nrows exWide
    norm_num [linspace, List.range_succ]
  rw [hx, hy]
  rfl

/-- Minimum of a list of rationals (`none` on the empty list). -/
def listMin : List ℚ → Option ℚ
  | [] => none
  | x :: xs =>
    match listMin xs with
    | none => some x
    | some m => some (min x m)

/-- Maximum of a list of rationals (`none` on the empty list). -/
def listMax : List ℚ → Option ℚ
  | [] => none
  | x :: xs =>
    match listMax xs with
    | none => some x
    | some m => some (max x m)

/-- The non-NaN entries of a cell list. -/
def notNaN (xs : List Val) : List ℚ := xs.filterMap id

/-- `np.nanmin`: minimum ignoring NaN cells; NaN (`none`) when every cell is
NaN, matching numpy's all-NaN result. -/
def nanmin (xs : List Val) : Val := listMin (notNaN xs)

/-- `np.nanmax`: maximum ignoring NaN cells. -/
def nanmax (xs : List Val) : Val := listMax (notNaN xs)

theorem listMin_cons_isSome (x : ℚ) (xs : List ℚ) : (listMin (x :: xs)).isSome := by
  cases hxs : listMin xs <;> simp [listMin, hxs]

theorem listMax_cons_isSome (x : ℚ) (xs : List ℚ) : (listMax (x :: xs)).isSome := by
  cases hxs : listMax xs <;> simp [listMax, hxs]

theorem listMin_mem {xs : List ℚ} {m : ℚ} (h : listMin xs = some m) : m ∈ xs := by
  induction xs with
  | nil => simp [listMin] at h
  | cons x xs ih =>
    cases hxs : listMin xs with
    | none =>
      rw [listMin, hxs, Option.some.injEq] at h
      simp [← h]
    | some m0 =>
      rw [listMin, hxs, Option.some.injEq] at h
      rcases min_choice x m0 with hc | hc <;> rw [hc] at h
      · simp [← h]
      · exact List.mem_cons_of_mem _ (ih (by rw [hxs, h]))

theorem listMin_le {xs : List ℚ} {m y : ℚ} (h : listMin xs = some m) (hy : y ∈ xs) :
    m ≤ y := by
  induction xs generalizing m with
  | nil => simp at hy
  | cons x xs ih =>
    rcases List.mem_cons.mp hy with rfl | hy'
    · cases hxs : listMin xs with
      | none =>
        rw [listMin, hxs, Option.some.injEq] at h
        exact le_of_eq h.symm
      | some m0 =>
        rw [listMin, hxs, Option.some.injEq] at h
        rw [← h]
        exact min_le_left _ _
    · cases hxs : listMin xs with
      | none =>
        exfalso
        rcases List.ne_nil_of_mem hy' |> List.exists_cons_of_ne_nil with ⟨z, zs, rfl⟩
        have := listMin_cons_isSome z zs
        rw [hxs] at this
        simp at this
      | some m0 =>
        rw [listMin, hxs, Option.some.injEq] at h
        calc m = min x m0 := h.symm
          _ ≤ m0 := min_le_right _ _
          _ ≤ y := ih hxs hy'

theorem listMax_mem {xs : List ℚ} {m : ℚ} (h : listMax xs = some m) : m ∈ xs := by
  induction xs with
  | nil => simp [listMax] at h
  | cons x xs ih =>
    cases hxs : listMax xs with
    | none =>
      rw [listMax, hxs, Option.some.injEq] at h
      simp [← h]
    | some m0 =>
      rw [listMax, hxs, Option.some.injEq] at h
      rcases max_choice x m0 with hc | hc <;> rw [hc] at h
      · simp [← h]
      · exact List.mem_cons_of_mem _ (ih (by rw [hxs, h]))

theorem listMax_ge {xs : List ℚ} {m y : ℚ} (h : listMax xs = some m) (hy : y ∈ xs) :
    y ≤ m := by
  induction xs generalizing m with
  | nil => simp at hy
  | cons x xs ih =>
    rcases List.mem_cons.mp hy with rfl | hy'
    · cases hxs : listMax xs with
      | none =>
        rw [listMax, hxs, Option.some.injEq] at h
        exact le_of_eq h
      | some m0 =>
        rw [listMax, hxs, Option.some.injEq] at h
        rw [← h]
        exact le_max_left _ _
    · cases hxs : listMax xs with
      | none =>
        exfalso
        rcases List.ne_nil_of_mem hy' |> List.exists_cons_of_ne_nil with ⟨z, zs, rfl⟩
        have := listMax_cons_isSome z zs
        rw [hxs] at this
        simp at this
      | some m0 =>
        rw [listMax, hxs, Option.some.injEq] at h
        calc y ≤ m0 := ih hxs hy'
          _ ≤ max x m0 := le_max_right _ _
          _ = m := h

/-- `ImageInterface.range` (lines 67-82) on the rank-2 datasets of this
embedding.  The key-dimension branch is guarded by `dim_idx in [0, 1] and
obj.bounds` — a missing (`None`, falsy) bounds fails the guard.  A value
dimension (`1 < dim_idx < len(vdims) + 2`) reads channel `dim_idx - 2` of
`np.atleast_3d(obj.data)`: rank-2 data has exactly one channel, so channel 0
is the whole array and any higher channel raises an `IndexError` in numpy.
Any other index falls through to `(None, None)`. -/
def rangeI (ds : Dataset) (dimIdx : ℕ) : Except PyErr (Val × Val) :=
  if dimIdx ≤ 1 ∧ ds.bounds.isSome then
    match ds.bounds with
    | some (l, b, r, t) =>
        if dimIdx = 1 then .ok (some b, some t) else .ok (some l, some r)
    | none => .ok (none, none)
  else if 1 < dimIdx ∧ dimIdx < ds.nvdims + 2 then
    if dimIdx = 2 then .ok (nanmin ds.data.flatten, nanmax ds.data.flatten)
    else .error (.indexError "channel index out of range for a rank-2 array")
  else .ok (none, none)

/-- C9: `range` for key dimension 0 returns `(left, right)` and for 1 returns
`(bottom, top)` straight from the bounding region, regardless of array
contents; for the value dimension (index 2, channel 0 of this rank-2
embedding) it returns the minimum and maximum over the non-NaN cells — the
returned endpoints belong to the non-NaN cells and bound all of them, and
they exist whenever some cell is non-NaN; for any index at or beyond
`len(vdims) + 2` it returns `(None, None)`. -/
theorem C9_range_key_value_other (ds : Dataset) (l b r t : ℚ)
    (hb : ds.bounds = some (l, b, r, t)) :
    rangeI ds 0 = .ok (some l, some r) ∧
    rangeI ds 1 = .ok (some b, some t) ∧
    (1 ≤ ds.nvdims →
      rangeI ds 2 = .ok (nanmin ds.data.flatten, nanmax ds.data.flatten)) ∧
    (∀ m, nanmin ds.data.flatten = some m →
      m ∈ notNaN ds.data.flatten ∧ ∀ v ∈ notNaN ds.data.flatten, m ≤ v) ∧
    (∀ m, nanmax ds.data.flatten = some m →
      m ∈ notNaN ds.data.flatten ∧ ∀ v ∈ notNaN ds.data.flatten, v ≤ m) ∧
    (notNaN ds.data.flatten ≠ [] →
      (nanmin ds.data.flatten).isSome ∧ (nanmax ds.data.flatten).isSome) ∧
    (∀ idx, ds.nvdims + 2 ≤ idx → rangeI ds idx = .ok (none, none)) := by
  refine ⟨?_, ?_, ?_, ?_, ?_, ?_, ?_⟩
  · unfold rangeI
    rw [hb]
    simp
  · unfold rangeI
    rw [hb]
    simp
  · intro hv
    unfold rangeI
    rw [hb]
    rw [if_neg (by simp), if_pos (by omega), if_pos rfl]
  · intro m hm
    exact ⟨listMin_mem hm, fun v hv => listMin_le hm hv⟩
  · intro m hm
    exact ⟨listMax_mem hm, fun v hv => listMax_ge hm hv⟩
  · intro hne
    rcases List.exists_cons_of_ne_nil hne with ⟨z, zs, hzs⟩
    constructor
    · unfold nanmin
      rw [hzs]
      exact listMin_cons_isSome z zs
    · unfold nanmax
      rw [hzs]
      exact listMax_cons_isSome z zs
  · intro idx hidx
    unfold rangeI
    rw [if_neg (fun h => by omega), if_neg (fun h => by omega)]

/-- The 2×2 dataset `[[1, NaN], [3, 4]]` on bounds `(0,0,2,2)` — the range
example from the specification. -/
def exNaN : Dataset :=
  ⟨[[some 1, none], [some 3, some 4]], some (0, 0, 2, 2), 1, 1, 1⟩

/-- Witness for C9: on `[[1, NaN], [3, 4]]` the value-dimension range is
`(1, 4)`, ignoring the NaN. -/
theorem C9_witness :
    rangeI exNaN 0 = .ok (some 0, some 2) ∧
    rangeI exNaN 2 = .ok (some 1, some 4) ∧
    rangeI exNaN 3 = .ok (none, none) := by
  have h := C9_range_key_value_other exNaN 0 0 2 2 rfl
  refine ⟨h.1, ?_, h.2.2.2.2.2.2 3 (by decide)⟩
  rw [h.2.2.1 (by decide)]
  simp only [Except.ok.injEq]
  decide

/-- C10: when the dataset's bounds attribute is absent (falsy), `range` for a
key dimension index falls through the guard `dim_idx in [0, 1] and obj.bounds`
to the undefined-range case and returns `(None, None)`. -/
theorem C10_range_without_bounds (ds : Dataset) (hb : ds.bounds = none) :
    rangeI ds 0 = .ok (none, none) ∧ rangeI ds 1 = .ok (none, none) := by
  unfold rangeI
  rw [hb]
  simp

/-- A dataset with no bounds attribute. -/
def exNoBounds : Dataset := ⟨[[some 1]], none, 1, 1, 1⟩

/-- Witness for C10. -/
theorem C10_witness :
    rangeI exNoBounds 0 = .ok (none, none) ∧
    rangeI exNoBounds 1 = .ok (none, none) :=
  C10_range_without_bounds exNoBounds rfl

/-- A numpy array of rank 1, 2 or 3, as `init` can receive or build. -/
inductive NPArr where
  | r1 : List Val → NPArr
  | r2 : List (List Val) → NPArr
  | r3 : List (List (List Val)) → NPArr
deriving DecidableEq

/-- `ndarray.ndim`. -/
def NPArr.ndim : NPArr → ℕ
  | .r1 _ => 1
  | .r2 _ => 2
  | .r3 _ => 3

/-- The raw cell stream of an array, read as rationals (coordinate arrays are
1-D and NaN-free in practice; NaN reads as 0 only on inputs the claims never
exercise). -/
def NPArr.cells : NPArr → List ℚ
  | .r1 v => v.map (fun c => c.getD 0)
  | .r2 m => m.flatten.map (fun c => c.getD 0)
  | .r3 m => (m.map List.flatten).flatten.map (fun c => c.getD 0)

/-- The `data` argument of `ImageInterface.init`: a plain array, a tuple of
arrays, or a mapping from dimension name to array (an association list with
the keys unique, as in a Python dict). -/
inductive InData where
  | arr : NPArr → InData
  | tup : List NPArr → InData
  | dct : List (String × NPArr) → InData
deriving DecidableEq

/-- Modelled from the spec: `util.bound_range` (`core/util.py` is not under
src/).  Spec §4.2: given a 1-D ascending array of uniformly spaced cell-center
coordinates, return `(low, high, density)` where low/high extend the first and
last centers by half a sample spacing (cell edges, not centers) and
density = count / (high - low).  Inputs with fewer than two samples get
spacing 0 under total rational division. -/
def bound_range (xs : List ℚ) : ℚ × ℚ × ℚ :=
  let n := xs.length
  let lo := xs.headD 0
  let hi := xs.getLastD 0
  let spacing := (hi - lo) / ((n : ℚ) - 1)
  (lo - spacing / 2, hi + spacing / 2,
    (n : ℚ) / ((hi + spacing / 2) - (lo - spacing / 2)))

/-- `data[key]` on a Python dict: the value, or a `KeyError` naming the key. -/
def lookupE (d : List (String × NPArr)) (k : String) : Except PyErr NPArr :=
  match d.lookup k with
  | some v => .ok v
  | none => .error (.keyError k)

/-- `np.dstack` on a list of rank-2 channel arrays: stacks them along a new
trailing axis (cell `(i, j)` of the result lists that cell of every channel).
Only reached when every value dimension was found; numpy raises on an empty
list, which no claim path reaches. -/
def dstack (chans : List NPArr) : NPArr :=
  match chans with
  | [] => .r1 []
  | c0 :: _ =>
    let base : List (List Val) := match c0 with
      | .r2 m => m
      | .r1 v => [v]
      | .r3 m => m.map (fun row => row.map (fun cell => cell.headD none))
    .r3 ((List.range base.length).map (fun i =>
      (List.range ((base.headD []).length)).map (fun j =>
        chans.map (fun c =>
          match c with
          | .r2 m => (m.getD i []).getD j none
          | .r1 v => v.getD j none
          | .r3 m => ((m.getD i []).getD j []).headD none))))

/-- The dict the tuple/mapping branch of `init` operates on: a tuple is zipped
with the declared dimension names (line 34, truncating like Python's `zip`),
a dict is taken as is, and a plain array has none. -/
def effDict (kx ky : String) (vds : List String) : InData →
    Option (List (String × NPArr))
  | .tup arrs => some ((([kx, ky] ++ vds)).zip arrs)
  | .dct d => some d
  | .arr _ => none

/-- The dict branch of `ImageInterface.init` (lines 35-44): look up the two
key-dimension coordinate arrays (computing the construction kwargs from
`bound_range`, which the source then drops from its return value), then the
value-dimension array (single) or the `np.dstack` of all of them.  Each
lookup of a missing name raises a `KeyError`, in access order. -/
def initDict (kx ky : String) (vds : List String)
    (d : List (String × NPArr)) : Except PyErr NPArr := do
  let ax ← lookupE d kx
  let _lrdx := bound_range ax.cells
  let ay ← lookupE d ky
  let _btdy := bound_range ay.cells
  match vds with
  | [v] => lookupE d v
  | _ => do
      let chans ← vds.mapM (lookupE d)
      pure (dstack chans)

/-- `ImageInterface.init` (lines 23-48) with the element type's declared
dimensions passed explicitly: key dimensions `kx`, `ky` and value dimensions
`vds`.  After the tuple/dict processing the array's rank must be 2 or 3, else
a `ValueError`; the processed array is returned with the resolved dimension
lists (the source also returns an empty extra dict). -/
def init (kx ky : String) (vds : List String) (data : InData) :
    Except PyErr (NPArr × List String × List String) := do
  let arr ← match effDict kx ky vds data with
    | some d => initDict kx ky vds d
    | none => match data with
        | .arr a => pure a
        | _ => pure (.r1 [])
  if arr.ndim = 2 ∨ arr.ndim = 3 then pure (arr, [kx, ky], vds)
  else .error (.valueError "ImageInterface expects a 2D array.")

/-- Whether an `init` result is a failure carrying a `ValueError`. -/
def raisesValueError : Except PyErr (NPArr × List String × List String) → Bool
  | .error (.valueError _) => true
  | _ => false

/-- Whether an `init` result is a success. -/
def initOk : Except PyErr (NPArr × List String × List String) → Bool
  | .ok _ => true
  | _ => false

/-- C3 is false as stated: a dict input whose keys do not match the declared
dimensions (here `{a: [[1]]}` against kdims `x`, `y` and vdim `z`) makes
`init` fail — but with a `KeyError` from the dict lookup on line 36, not a
value error; the only `ValueError` in `init` is the rank check. -/
theorem C3_counterexample_keyError_not_valueError :
    init "x" "y" ["z"] (.dct [("a", .r2 [[some 1]])]) =
      .error (.keyError "x") ∧
    raisesValueError (init "x" "y" ["z"] (.dct [("a", .r2 [[some 1]])])) = false ∧
    initOk (init "x" "y" ["z"] (.dct [("a", .r2 [[some 1]])])) = false := by
  refine ⟨rfl, rfl, rfl⟩

theorem mapM_lookupE_first_missing (d : List (String × NPArr)) :
    ∀ (vds : List String) (dim : String),
      vds.find? (fun k => (d.lookup k).isNone) = some dim →
      vds.mapM (lookupE d) = .error (.keyError dim) := by
  intro vds
  induction vds with
  | nil => intro dim h; simp at h
  | cons v tl ih =>
    intro dim h
    by_cases hv : (d.lookup v).isNone
    · rw [List.find?_cons_of_pos _ (by simpa using hv)] at h
      have hd : dim = v := by simpa using h.symm
      subst hd
      rw [List.mapM_cons]
      have : lookupE d dim = .error (.keyError dim) := by
        unfold lookupE
        rcases hl : d.lookup dim with _ | w
        · rfl
        · rw [hl] at hv; simp at hv
      rw [this]
      rfl
    · rw [List.find?_cons_of_neg _ (by simpa using hv)] at h
      rw [List.mapM_cons]
      rcases hl : d.lookup v with _ | w
      · rw [hl] at hv; simp at hv
      · have : lookupE d v = .ok w := by unfold lookupE; rw [hl]
        rw [this, ih dim h]
        rfl

/-- C3 (amended): a tuple/mapping input to `init` missing one of the declared
dimensions fails with a `KeyError` naming the first missing dimension in
access order (x key dimension, y key dimension, then the value dimensions) —
a key lookup error rather than a value error — and in particular never
silently succeeds with an array of the wrong shape. -/
theorem C3_init_missing_dim_keyError (kx ky : String) (vds : List String)
    (data : InData) (d : List (String × NPArr))
    (hd : effDict kx ky vds data = some d) (dim : String)
    (hfirst : ([kx, ky] ++ vds).find? (fun k => (d.lookup k).isNone) = some dim) :
    init kx ky vds data = .error (.keyError dim) := by
  unfold init
  rw [hd]
  show (initDict kx ky vds d).bind _ = _
  suffices hsuf : initDict kx ky vds d = .error (.keyError dim) by
    rw [hsuf]
    rfl
  unfold initDict
  by_cases hkx : (d.lookup kx).isNone
  · rw [List.cons_append, List.find?_cons_of_pos _ (by simpa using hkx)] at hfirst
    have hdim : dim = kx := by simpa using hfirst.symm
    subst hdim
    have hlx : lookupE d dim = .error (.keyError dim) := by
      unfold lookupE
      rcases hl : d.lookup dim with _ | w
      · rfl
      · rw [hl] at hkx; simp at hkx
    rw [hlx]
    rfl
  · rw [List.cons_append, List.find?_cons_of_neg _ (by simpa using hkx)] at hfirst
    rcases hlx : d.lookup kx with _ | wx
    · rw [hlx] at hkx; simp at hkx
    · have hx : lookupE d kx = .ok wx := by unfold lookupE; rw [hlx]
      rw [hx]
      by_cases hky : (d.lookup ky).isNone
      · rw [List.cons_append, List.find?_cons_of_pos _ (by simpa using hky)] at hfirst
        have hdim : dim = ky := by simpa using hfirst.symm
        subst hdim
        have hly : lookupE d dim = .error (.keyError dim) := by
          unfold lookupE
          rcases hl : d.lookup dim with _ | w
          · rfl
          · rw [hl] at hky; simp at hky
        rw [hly]
        rfl
      · rw [List.cons_append, List.find?_cons_of_neg _ (by simpa using hky)] at hfirst
        rcases hly : d.lookup ky with _ | wy
        · rw [hly] at hky; simp at hky
        · have hy : lookupE d ky = .ok wy := by unfold lookupE; rw [hly]
          rw [hy]
          simp only [List.nil_append] at hfirst
          rcases hvds : vds with _ | ⟨v, tl⟩
          · rw [hvds] at hfirst; simp at hfirst
          · rw [hvds] at hfirst
            rcases htl : tl with _ | ⟨v2, tl2⟩
            · rw [htl] at hfirst
              have hone : [v].find? (fun k => (d.lookup k).isNone) = some dim :=
                hfirst
              have hdim : dim = v := by
                rcases hfv : (d.lookup v).isNone with _ | _
                · rw [List.find?_cons_of_neg _ (by simpa using hfv)] at hone
                  simp at hone
                · rw [List.find?_cons_of_pos _ (by simpa using hfv)] at hone
                  simpa using hone.symm
              subst hdim
              have hvnone : (d.lookup dim).isNone := by
                rcases hfv : (d.lookup dim).isNone with _ | _
                · rw [List.find?_cons_of_neg _ (by simpa using hfv)] at hone
                  simp at hone
                · rfl
              show lookupE d dim = _
              unfold lookupE
              rcases hl : d.lookup dim with _ | w
              · rfl
              · rw [hl] at hvnone; simp at hvnone
            · show (v :: v2 :: tl2).mapM (lookupE d) >>= _ = _
              rw [mapM_lookupE_first_missing d (v :: v2 :: tl2) dim
                (by rw [← htl]; exact hfirst)]
              rfl

/-- Witness for C3 (amended): the empty dict is missing the first key
dimension. -/
theorem C3_witness :
    init "x" "y" ["z"] (.dct []) = .error (.keyError "x") :=
  C3_init_missing_dim_keyError "x" "y" ["z"] (.dct []) [] rfl "x" rfl

/-- A per-axis selection, after line 117's normalization: a scalar coordinate
or a slice (a `(start, stop)` tuple becomes `slice(start, stop)`; an
unselected key dimension defaults to `slice(None)`, here `rng none none`). -/
inductive Sel where
  | scalar : ℚ → Sel
  | rng : Option ℚ → Option ℚ → Sel
deriving DecidableEq

/-- `isinstance(sel, slice)`. -/
def Sel.isSlice : Sel → Bool
  | .scalar _ => false
  | .rng _ _ => true

/-- Python list indexing: negative indices wrap around once; anything out of
`[-len, len)` is an `IndexError` (`none`). -/
def pyGet {α : Type} (xs : List α) (i : ℤ) : Option α :=
  if 0 ≤ i then xs[i.toNat]?
  else if 0 ≤ i + xs.length then xs[(i + xs.length).toNat]?
  else none

/-- `data[(i, j)]` on a rank-2 numpy array: per-axis Python indexing. -/
def getCell (d : List (List Val)) (i j : ℤ) : Option Val :=
  (pyGet d i).bind (fun row => pyGet row j)

/-- Modelled from the spec: `SheetCoordinateSystem.sheet2matrixidx`
(`core/sheetcoords.py` is not under src/).  Spec §4.6 and §6: continuous
coordinate → nearest discrete cell index pair; rows are counted from the top
of the bounding region and columns from the left, at the stored densities:
`(row, col) = (⌊(t - y)·ydensity⌋, ⌊(x - l)·xdensity⌋)`. -/
def sheet2matrixidx (ds : Dataset) (x y : ℚ) : ℤ × ℤ :=
  let q := lbrt ds
  (⌊(q.2.2.2 - y) * ds.ydensity⌋, ⌊(x - q.1) * ds.xdensity⌋)

/-- Round to the nearest integer (half rounds up): snaps a requested edge to
the nearest cell boundary. -/
def roundN (q : ℚ) : ℤ := ⌊q + 1 / 2⌋

/-- Clip an integer cell index into `[0, n]`. -/
def clipIdx (z : ℤ) (n : ℕ) : ℕ := if z < 0 then 0 else min z.toNat n

/-- Modelled from the spec: the row index range of `Slice(bounds, dataset)`
(`core/sheetcoords.py` is not under src/).  Spec §3 and §4.6: a `Slice`
describes how the requested sub-rectangle maps onto whole-cell array index
ranges, computed from the bounding region and densities; rows count from the
top and the range is clipped to the array. -/
def sliceRows (ds : Dataset) (b1 t1 : ℚ) : ℕ × ℕ :=
  let t := (lbrt ds).2.2.2
  (clipIdx (roundN ((t - t1) * ds.ydensity)) (nrows ds),
   clipIdx (roundN ((t - b1) * ds.ydensity)) (nrows ds))

/-- Modelled from the spec: the column index range of `Slice(bounds,
dataset)`; columns count from the left and are clipped to the array. -/
def sliceCols (ds : Dataset) (l1 r1 : ℚ) : ℕ × ℕ :=
  let l := (lbrt ds).1
  (clipIdx (roundN ((l1 - l) * ds.xdensity)) (ncols ds),
   clipIdx (roundN ((r1 - l) * ds.xdensity)) (ncols ds))

/-- Modelled from the spec: `Slice.compute_bounds` — the realized bounding
region is the outer whole-cell boundary of the kept index ranges (spec §4.6:
realized bounds reflect whole-cell boundaries, not the raw requested
numbers). -/
def sliceBounds (ds : Dataset) (rs cs : ℕ × ℕ) : ℚ × ℚ × ℚ × ℚ :=
  let q := lbrt ds
  (q.1 + (cs.1 : ℚ) / ds.xdensity, q.2.2.2 - (rs.2 : ℚ) / ds.ydensity,
   q.1 + (cs.2 : ℚ) / ds.xdensity, q.2.2.2 - (rs.1 : ℚ) / ds.ydensity)

/-- Modelled from the spec: `Slice.submatrix` — the sub-array of the kept row
and column index ranges. -/
def submatrix (d : List (List Val)) (rs cs : ℕ × ℕ) : List (List Val) :=
  ((d.drop rs.1).take (rs.2 - rs.1)).map
    (fun row => (row.drop cs.1).take (cs.2 - cs.1))

/-- Modelled from the spec: the x-coordinate of `closest_cell_center`
(`core/sheetcoords.py` is not under src/; spec §6 describes it as a "closest
cell center" query): the continuous center of the existing column nearest to
`x`, the index clamped into the array. -/
def closestCellCenterX (ds : Dataset) (x : ℚ) : ℚ :=
  let l := (lbrt ds).1
  let i := ⌊(x - l) * ds.xdensity⌋
  let ic := if i < 0 then 0 else min i.toNat (ncols ds - 1)
  l + ((ic : ℚ) + 1 / 2) / ds.xdensity

/-- Modelled from the spec: the y-coordinate of `closest_cell_center`; rows
count from the top of the bounding region. -/
def closestCellCenterY (ds : Dataset) (y : ℚ) : ℚ :=
  let t := (lbrt ds).2.2.2
  let i := ⌊(t - y) * ds.ydensity⌋
  let ic := if i < 0 then 0 else min i.toNat (nrows ds - 1)
  t - ((ic : ℚ) + 1 / 2) / ds.ydensity

/-- `data[:, j]` with Python index semantics, as the list of one entry per
row. -/
def colOf (d : List (List Val)) (j : ℤ) : Option (List Val) :=
  d.mapM (fun row => pyGet row j)

/-- Result of `ImageInterface.select`: the single cell value of the
all-scalar branch (which returns an empty metadata dict), or a sub-array with
its realized bounding region metadata. -/
inductive SelResult where
  | cell : Val → SelResult
  | region : List (List Val) → (ℚ × ℚ × ℚ × ℚ) → SelResult
deriving DecidableEq

/-- Lines 137-141 of `select`: the x-selection was a scalar while y was a
range, so the scalar axis collapses to its single nearest cell: the realized
x-bounds become a cell-width interval centered on the closest cell center,
and the kept column (indexed with the sheet-level column of the scalar, per
line 140) is extracted as a one-column array.  `bb` is the slice-computed
bounding region of line 136. -/
def collapseX (ds : Dataset) (x : ℚ) (sub : List (List Val))
    (bb : ℚ × ℚ × ℚ × ℚ) : Except PyErr SelResult :=
  let xc := closestCellCenterX ds x
  let j := (sheet2matrixidx ds x bb.2.1).2
  match colOf sub j with
  | some col =>
      .ok (.region (col.map (fun v => [v]))
        (xc - (1 / ds.xdensity) / 2, bb.2.1,
         xc + (1 / ds.xdensity) / 2, bb.2.2.2))
  | none => .error (.indexError "column index out of range")

/-- Lines 142-146 of `select`: the y-selection was a scalar while x was a
range; symmetric to `collapseX` with the kept row. -/
def collapseY (ds : Dataset) (y : ℚ) (sub : List (List Val))
    (bb : ℚ × ℚ × ℚ × ℚ) : Except PyErr SelResult :=
  let yc := closestCellCenterY ds y
  let i := (sheet2matrixidx ds bb.1 y).1
  match pyGet sub i with
  | some row =>
      .ok (.region [row]
        (bb.1, yc - (1 / ds.ydensity) / 2,
         bb.2.2.1, yc + (1 / ds.ydensity) / 2))
  | none => .error (.indexError "row index out of range")

/-- Lines 123-148 of `select`: the branch taken when at least one coordinate
is a slice.  Each range clamps its axis to the existing bounding region
(`max` for the lower edge, `min` for the upper, `None` endpoints leaving the
edge untouched); a `Slice` is built from the clamped rectangle, the
sub-array extracted and the realized bounds recomputed; a remaining scalar
axis is collapsed to its nearest cell. -/
def rangeBranch (ds : Dataset) (xsel ysel : Sel) : Except PyErr SelResult :=
  let q := lbrt ds
  let lr : ℚ × ℚ := match xsel with
    | .rng s e => ((match s with | none => q.1 | some sv => max q.1 sv),
                   (match e with | none => q.2.2.1 | some ev => min q.2.2.1 ev))
    | _ => (q.1, q.2.2.1)
  let bt : ℚ × ℚ := match ysel with
    | .rng s e => ((match s with | none => q.2.1 | some sv => max q.2.1 sv),
                   (match e with | none => q.2.2.2 | some ev => min q.2.2.2 ev))
    | _ => (q.2.1, q.2.2.2)
  let rs := sliceRows ds bt.1 bt.2
  let cs := sliceCols ds lr.1 lr.2
  let sub := submatrix ds.data rs cs
  let bb := sliceBounds ds rs cs
  match xsel, ysel with
  | .scalar x, _ => collapseX ds x sub bb
  | _, .scalar y => collapseY ds y sub bb
  | _, _ => .ok (.region sub bb)

/-- `ImageInterface.select` (lines 112-148).  When both key-dimension
selections are scalars the cell at their sheet-to-matrix index is returned
with no bounds metadata (line 122); otherwise the range branch runs. -/
def select (ds : Dataset) (xsel ysel : Sel) : Except PyErr SelResult :=
  match xsel, ysel with
  | .scalar x, .scalar y =>
      let ij := sheet2matrixidx ds x y
      match getCell ds.data ij.1 ij.2 with
      | some v => .ok (.cell v)
      | none => .error (.indexError "array index out of range")
  | xsel, ysel => rangeBranch ds xsel ysel

/-- What C6 asserts of a `select` outcome with a range selection: if a result
is returned at all it is the region form, and its bounding-region metadata
does not exceed the original bounds `(l, b, r, t)` on any side.  A propagated
indexing error returns nothing, satisfying the claim vacuously. -/
def withinB (orig : ℚ × ℚ × ℚ × ℚ) : Except PyErr SelResult → Prop
  | .ok (.region _ bb) =>
      orig.1 ≤ bb.1 ∧ orig.2.1 ≤ bb.2.1 ∧
      bb.2.2.1 ≤ orig.2.2.1 ∧ bb.2.2.2 ≤ orig.2.2.2
  | .ok (.cell _) => False
  | .error _ => True

theorem clipIdx_le (z : ℤ) (n : ℕ) : clipIdx z n ≤ n := by
  unfold clipIdx
  split
  · omega
  · exact min_le_right _ _

theorem sliceBounds_within (ds : Dataset) (l b r t b1 t1 l1 r1 : ℚ)
    (hb : ds.bounds = some (l, b, r, t))
    (hxd : 0 < ds.xdensity) (hyd : 0 < ds.ydensity)
    (hcx : ((ncols ds : ℚ)) = (r - l) * ds.xdensity)
    (hcy : ((nrows ds : ℚ)) = (t - b) * ds.ydensity) :
    l ≤ (sliceBounds ds (sliceRows ds b1 t1) (sliceCols ds l1 r1)).1 ∧
    b ≤ (sliceBounds ds (sliceRows ds b1 t1) (sliceCols ds l1 r1)).2.1 ∧
    (sliceBounds ds (sliceRows ds b1 t1) (sliceCols ds l1 r1)).2.2.1 ≤ r ∧
    (sliceBounds ds (sliceRows ds b1 t1) (sliceCols ds l1 r1)).2.2.2 ≤ t := by
  have hq : lbrt ds = (l, b, r, t) := by
    unfold lbrt
    rw [hb]
    rfl
  unfold sliceBounds sliceRows sliceCols
  rw [hq]
  dsimp only
  refine ⟨?_, ?_, ?_, ?_⟩
  · exact le_add_of_nonneg_right (div_nonneg (Nat.cast_nonneg _) hxd.le)
  · have hle : ((clipIdx (roundN ((t - b1) * ds.ydensity)) (nrows ds) : ℚ))
        / ds.ydensity ≤ t - b := by
      rw [div_le_iff₀ hyd]
      calc ((clipIdx (roundN ((t - b1) * ds.ydensity)) (nrows ds) : ℚ))
          ≤ (nrows ds : ℚ) := by exact_mod_cast clipIdx_le _ _
        _ = (t - b) * ds.ydensity := hcy
    linarith
  · have hle : ((clipIdx (roundN ((r1 - l) * ds.xdensity)) (ncols ds) : ℚ))
        / ds.xdensity ≤ r - l := by
      rw [div_le_iff₀ hxd]
      calc ((clipIdx (roundN ((r1 - l) * ds.xdensity)) (ncols ds) : ℚ))
          ≤ (ncols ds : ℚ) := by exact_mod_cast clipIdx_le _ _
        _ = (r - l) * ds.xdensity := hcx
    linarith
  · exact sub_le_self _ (div_nonneg (Nat.cast_nonneg _) hyd.le)

theorem closestCellCenterX_within (ds : Dataset) (l b r t x : ℚ)
    (hb : ds.bounds = some (l, b, r, t)) (hxd : 0 < ds.xdensity)
    (hcx : ((ncols ds : ℚ)) = (r - l) * ds.xdensity) (hn : 1 ≤ ncols ds) :
    l ≤ closestCellCenterX ds x - (1 / ds.xdensity) / 2 ∧
    closestCellCenterX ds x + (1 / ds.xdensity) / 2 ≤ r := by
  have hq : lbrt ds = (l, b, r, t) := by
    unfold lbrt
    rw [hb]
    rfl
  have hxne : ds.xdensity ≠ 0 := ne_of_gt hxd
  unfold closestCellCenterX
  rw [hq]
  dsimp only
  set i := ⌊(x - l) * ds.xdensity⌋ with hidef
  set ic := if i < 0 then 0 else min i.toNat (ncols ds - 1) with hicdef
  have hub : ic + 1 ≤ ncols ds := by
    rw [hicdef]
    split
    · omega
    · have := min_le_right i.toNat (ncols ds - 1)
      omega
  have h1 : l + ((ic : ℚ) + 1 / 2) / ds.xdensity - (1 / ds.xdensity) / 2 =
      l + (ic : ℚ) / ds.xdensity := by
    field_simp
    ring
  have h2 : l + ((ic : ℚ) + 1 / 2) / ds.xdensity + (1 / ds.xdensity) / 2 =
      l + ((ic : ℚ) + 1) / ds.xdensity := by
    field_simp
    ring
  constructor
  · rw [h1]
    exact le_add_of_nonneg_right (div_nonneg (Nat.cast_nonneg _) hxd.le)
  · rw [h2]
    have hle : ((ic : ℚ) + 1) / ds.xdensity ≤ r - l := by
      rw [div_le_iff₀ hxd]
      calc ((ic : ℚ) + 1) ≤ (ncols ds : ℚ) := by exact_mod_cast hub
        _ = (r - l) * ds.xdensity := hcx
    linarith

theorem closestCellCenterY_within (ds : Dataset) (l b r t y : ℚ)
    (hb : ds.bounds = some (l, b, r, t)) (hyd : 0 < ds.ydensity)
    (hcy : ((nrows ds : ℚ)) = (t - b) * ds.ydensity) (hm : 1 ≤ nrows ds) :
    b ≤ closestCellCenterY ds y - (1 / ds.ydensity) / 2 ∧
    closestCellCenterY ds y + (1 / ds.ydensity) / 2 ≤ t := by
  have hq : lbrt ds = (l, b, r, t) := by
    unfold lbrt
    rw [hb]
    rfl
  have hyne : ds.ydensity ≠ 0 := ne_of_gt hyd
  unfold closestCellCenterY
  rw [hq]
  dsimp only
  set i := ⌊(t - y) * ds.ydensity⌋ with hidef
  set ic := if i < 0 then 0 else min i.toNat (nrows ds - 1) with hicdef
  have hub : ic + 1 ≤ nrows ds := by
    rw [hicdef]
    split
    · omega
    · have := min_le_right i.toNat (nrows ds - 1)
      omega
  have h1 : t - ((ic : ℚ) + 1 / 2) / ds.ydensity - (1 / ds.ydensity) / 2 =
      t - ((ic : ℚ) + 1) / ds.ydensity := by
    field_simp
    ring
  have h2 : t - ((ic : ℚ) + 1 / 2) / ds.ydensity + (1 / ds.ydensity) / 2 =
      t - (ic : ℚ) / ds.ydensity := by
    field_simp
    ring
  constructor
  · rw [h1]
    have hle : ((ic : ℚ) + 1) / ds.ydensity ≤ t - b := by
      rw [div_le_iff₀ hyd]
      calc ((ic : ℚ) + 1) ≤ (nrows ds : ℚ) := by exact_mod_cast hub
        _ = (t - b) * ds.ydensity := hcy
    linarith
  · rw [h2]
    have : (0 : ℚ) ≤ (ic : ℚ) / ds.ydensity :=
      div_nonneg (Nat.cast_nonneg _) hyd.le
    linarith

theorem collapseX_within (ds : Dataset) (l b r t x : ℚ)
    (sub : List (List Val)) (bb : ℚ × ℚ × ℚ × ℚ)
    (hb : ds.bounds = some (l, b, r, t)) (hxd : 0 < ds.xdensity)
    (hcx : ((ncols ds : ℚ)) = (r - l) * ds.xdensity) (hn : 1 ≤ ncols ds)
    (hbb : b ≤ bb.2.1 ∧ bb.2.2.2 ≤ t) :
    withinB (l, b, r, t) (collapseX ds x sub bb) := by
  unfold collapseX
  dsimp only
  rcases hc : colOf sub ((sheet2matrixidx ds x bb.2.1).2) with _ | col
  · exact trivial
  · exact ⟨(closestCellCenterX_within ds l b r t x hb hxd hcx hn).1, hbb.1,
      (closestCellCenterX_within ds l b r t x hb hxd hcx hn).2, hbb.2⟩

theorem collapseY_within (ds : Dataset) (l b r t y : ℚ)
    (sub : List (List Val)) (bb : ℚ × ℚ × ℚ × ℚ)
    (hb : ds.bounds = some (l, b, r, t)) (hyd : 0 < ds.ydensity)
    (hcy : ((nrows ds : ℚ)) = (t - b) * ds.ydensity) (hm : 1 ≤ nrows ds)
    (hbb : l ≤ bb.1 ∧ bb.2.2.1 ≤ r) :
    withinB (l, b, r, t) (collapseY ds y sub bb) := by
  unfold collapseY
  dsimp only
  rcases hc : pyGet sub ((sheet2matrixidx ds bb.1 y).1) with _ | row
  · exact trivial
  · exact ⟨hbb.1, (closestCellCenterY_within ds l b r t y hb hyd hcy hm).1,
      hbb.2, (closestCellCenterY_within ds l b r t y hb hyd hcy hm).2⟩

theorem rangeBranch_within (ds : Dataset) (l b r t : ℚ) (xsel ysel : Sel)
    (hb : ds.bounds = some (l, b, r, t))
    (hxd : 0 < ds.xdensity) (hyd : 0 < ds.ydensity)
    (hcx : ((ncols ds : ℚ)) = (r - l) * ds.xdensity)
    (hcy : ((nrows ds : ℚ)) = (t - b) * ds.ydensity)
    (hn : 1 ≤ ncols ds) (hm : 1 ≤ nrows ds) :
    withinB (l, b, r, t) (rangeBranch ds xsel ysel) := by
  cases xsel with
  | scalar x =>
    cases ysel with
    | scalar y =>
      exact collapseX_within ds l b r t x _ _ hb hxd hcx hn
        ⟨(sliceBounds_within ds l b r t _ _ _ _ hb hxd hyd hcx hcy).2.1,
         (sliceBounds_within ds l b r t _ _ _ _ hb hxd hyd hcx hcy).2.2.2⟩
    | rng s e =>
      exact collapseX_within ds l b r t x _ _ hb hxd hcx hn
        ⟨(sliceBounds_within ds l b r t _ _ _ _ hb hxd hyd hcx hcy).2.1,
         (sliceBounds_within ds l b r t _ _ _ _ hb hxd hyd hcx hcy).2.2.2⟩
  | rng s e =>
    cases ysel with
    | scalar y =>
      exact collapseY_within ds l b r t y _ _ hb hyd hcy hm
        ⟨(sliceBounds_within ds l b r t _ _ _ _ hb hxd hyd hcx hcy).1,
         (sliceBounds_within ds l b r t _ _ _ _ hb hxd hyd hcx hcy).2.2.1⟩
    | rng s2 e2 =>
      exact (sliceBounds_within ds l b r t _ _ _ _ hb hxd hyd hcx hcy)

/-- C6: whenever at least one axis selection is a range, `select` clamps the
requested sub-rectangle to the dataset's existing bounding region per axis
(`max` for the lower bound, `min` for the upper) before discretizing, so any
bounding region it returns in the metadata is contained in the original
bounds on every side — also through the scalar-collapse sub-branches, whose
cell-width interval around a clamped closest cell center stays inside the
region.  (A propagated indexing error returns no metadata at all.) -/
theorem C6_select_range_clamps_bounds (ds : Dataset) (l b r t : ℚ)
    (xsel ysel : Sel) (hb : ds.bounds = some (l, b, r, t))
    (hxd : 0 < ds.xdensity) (hyd : 0 < ds.ydensity)
    (hcx : ((ncols ds : ℚ)) = (r - l) * ds.xdensity)
    (hcy : ((nrows ds : ℚ)) = (t - b) * ds.ydensity)
    (hn : 1 ≤ ncols ds) (hm : 1 ≤ nrows ds)
    (hr : xsel.isSlice = true ∨ ysel.isSlice = true) :
    withinB (l, b, r, t) (select ds xsel ysel) := by
  cases xsel with
  | scalar x =>
    cases ysel with
    | scalar y => simp [Sel.isSlice] at hr
    | rng s e =>
      exact rangeBranch_within ds l b r t (.scalar x) (.rng s e)
        hb hxd hyd hcx hcy hn hm
  | rng s e =>
    cases ysel with
    | scalar y =>
      exact rangeBranch_within ds l b r t (.rng s e) (.scalar y)
        hb hxd hyd hcx hcy hn hm
    | rng s2 e2 =>
      exact rangeBranch_within ds l b r t (.rng s e) (.rng s2 e2)
        hb hxd hyd hcx hcy hn hm

/-- Witness for C6: a range reaching far outside the 2×2 dataset's bounds
still yields metadata inside `(0, 0, 2, 2)`. -/
theorem C6_witness :
    withinB (0, 0, 2, 2)
      (select exImg (.rng (some (-5)) (some 5)) (.rng none none)) :=
  C6_select_range_clamps_bounds exImg 0 0 2 2 (.rng (some (-5)) (some 5))
    (.rng none none) rfl (by norm_num [exImg]) (by norm_num [exImg])
    (by norm_num [ncols, exImg]) (by norm_num [nrows, exImg])
    (by decide) (by decide) (Or.inl rfl)

/-- The continuous x-center of array column `j`, per the sheet coordinate
model (columns count from the left edge at the stored density). -/
def cellCenterX (ds : Dataset) (j : ℕ) : ℚ :=
  (lbrt ds).1 + ((j : ℚ) + 1 / 2) / ds.xdensity

/-- The continuous y-center of array row `i` (rows count from the top edge of
the bounding region, matching the raster storage orientation). -/
def cellCenterY (ds : Dataset) (i : ℕ) : ℚ :=
  (lbrt ds).2.2.2 - ((i : ℚ) + 1 / 2) / ds.ydensity

theorem floor_cast_add_half (n : ℕ) : ⌊(n : ℚ) + 1 / 2⌋ = (n : ℤ) := by
  rw [show ((n : ℚ) + 1 / 2) = ((n : ℤ) : ℚ) + 1 / 2 by push_cast; ring,
    Int.floor_int_add]
  norm_num

theorem sheet2matrixidx_center (ds : Dataset) (i j : ℕ)
    (hxd : 0 < ds.xdensity) (hyd : 0 < ds.ydensity) :
    sheet2matrixidx ds (cellCenterX ds j) (cellCenterY ds i) =
      ((i : ℤ), (j : ℤ)) := by
  have hxne : ds.xdensity ≠ 0 := ne_of_gt hxd
  have hyne : ds.ydensity ≠ 0 := ne_of_gt hyd
  unfold sheet2matrixidx cellCenterX cellCenterY
  dsimp only
  have ha : ((lbrt ds).2.2.2 - ((lbrt ds).2.2.2 - ((i : ℚ) + 1 / 2) / ds.ydensity)) *
      ds.ydensity = (i : ℚ) + 1 / 2 := by
    field_simp
    ring
  have hc : ((lbrt ds).1 + ((j : ℚ) + 1 / 2) / ds.xdensity - (lbrt ds).1) *
      ds.xdensity = (j : ℚ) + 1 / 2 := by
    field_simp
    ring
  rw [ha, hc, floor_cast_add_half, floor_cast_add_half]

/-- C7: with both key-dimension selections scalar, `select` returns the array
entry at the sheet-to-matrix index of the two coordinates, with no bounds
metadata; in particular selecting the cell-center coordinates of cell
`(i, j)` returns the same value as direct array indexing at `(i, j)`. -/
theorem C7_select_scalar_center_roundtrip (ds : Dataset) (i j : ℕ)
    (row : List Val) (v : Val)
    (hxd : 0 < ds.xdensity) (hyd : 0 < ds.ydensity)
    (hrow : ds.data[i]? = some row) (hv : row[j]? = some v) :
    select ds (.scalar (cellCenterX ds j)) (.scalar (cellCenterY ds i)) =
      .ok (.cell v) := by
  have hidx := sheet2matrixidx_center ds i j hxd hyd
  have h1 : pyGet ds.data ((i : ℕ) : ℤ) = some row := by
    unfold pyGet
    rw [if_pos (Int.natCast_nonneg i), Int.toNat_natCast]
    exact hrow
  have h2 : pyGet row ((j : ℕ) : ℤ) = some v := by
    unfold pyGet
    rw [if_pos (Int.natCast_nonneg j), Int.toNat_natCast]
    exact hv
  have hg : getCell ds.data ((i : ℕ) : ℤ) ((j : ℕ) : ℤ) = some v := by
    unfold getCell
    rw [h1]
    exact h2
  unfold select
  dsimp only
  rw [hidx]
  dsimp only
  rw [hg]

/-- Witness for C7: the center of cell `(0, 1)` of the 2×2 probe dataset is
`(3/2, 3/2)`, and selecting it returns the array entry `2` at `(0, 1)`. -/
theorem C7_witness :
    select exImg (.scalar (cellCenterX exImg 1)) (.scalar (cellCenterY exImg 0)) =
      .ok (.cell (some 2)) :=
  C7_select_scalar_center_roundtrip exImg 0 1 [some 1, some 2] (some 2)
    (by decide) (by decide) rfl rfl

end Img
